import Mathlib

/-!
Shallow embedding of the APKINDEX dependency-resolution tool
(`src/3etap.py`, with the near-duplicate earlier stage in `src/main.py`).

Python text values are modelled as Lean `String` (a list of unicode
characters, matching Python's `str`); all text primitives the source uses
(`str.strip`, `str.split`, `str.splitlines`, `str.lower`, `str.upper`,
substring membership `in`) are given explicit executable models over
`List Char`.  Python `dict` is modelled as an association list where
assignment updates the first matching key in place (preserving insertion
order) and lookup returns the first match, exactly the observable
behaviour of an insertion-ordered `dict`.  Exceptions are modelled with
`Except String` carrying the raised message.
-/

set_option maxHeartbeats 1000000

namespace Zadacha

/-- Python whitespace characters as used by `str.strip()` / `str.split()`. -/
def pyIsSpace (c : Char) : Bool :=
  c = ' ' || c = '\t' || c = '\n' || c = '\x0d' || c = '\x0b' || c = '\x0c'

/-- Strip leading and trailing whitespace from a character list
(model of Python `str.strip()`). -/
def stripList (l : List Char) : List Char :=
  ((l.dropWhile pyIsSpace).reverse.dropWhile pyIsSpace).reverse

/-- Model of Python `str.strip()`. -/
def pyStrip (s : String) : String :=
  String.mk (stripList s.data)

/-- Split a character list at every occurrence of a single separator
character, keeping empty parts (model of Python `str.split(sep)` for a
one-character separator). -/
def splitChar (sep : Char) : List Char → List (List Char)
  | [] => [[]]
  | c :: rest =>
    if c = sep then [] :: splitChar sep rest
    else
      match splitChar sep rest with
      | [] => [[c]]
      | p :: ps => (c :: p) :: ps

/-- Split a character list at every non-overlapping occurrence of the
two-character separator `"\n\n"`, scanning left to right (model of the
source's `text.split("\n\n")`). -/
def splitNN : List Char → List (List Char)
  | [] => [[]]
  | '\n' :: '\n' :: rest => [] :: splitNN rest
  | c :: rest =>
    match splitNN rest with
    | [] => [[c]]
    | p :: ps => (c :: p) :: ps

/-- Split at the first occurrence of a separator character, or `none` when
the separator does not occur (model of `ln.split(":", 1)` guarded by the
source's `":" not in ln` check). -/
def splitFirst (sep : Char) : List Char → Option (List Char × List Char)
  | [] => none
  | c :: rest =>
    if c = sep then some ([], rest)
    else (splitFirst sep rest).map (fun p => (c :: p.1, p.2))

/-- Accumulator worker for whitespace splitting. -/
def splitWsAux : List Char → List Char → List (List Char)
  | [], acc => if acc = [] then [] else [acc.reverse]
  | c :: rest, acc =>
    if pyIsSpace c then
      if acc = [] then splitWsAux rest []
      else acc.reverse :: splitWsAux rest []
    else splitWsAux rest (c :: acc)

/-- Model of Python `str.split()` (no argument): split on whitespace runs,
never producing empty parts. -/
def pySplitWs (s : String) : List String :=
  (splitWsAux s.data []).map String.mk

/-- Model of Python `str.splitlines()` restricted to `"\n"` line breaks:
like splitting on `"\n"` but without a trailing empty part, and empty for
the empty string. -/
def splitlinesList (l : List Char) : List (List Char) :=
  if l = [] then []
  else
    let parts := splitChar '\n' l
    if parts.getLast? = some [] then parts.dropLast else parts

/-- Substring test on character lists: does `needle` occur contiguously in
`hay`?  Model of Python `needle in hay` for strings. -/
def containsList : List Char → List Char → Bool
  | [], needle => needle.isPrefixOf []
  | c :: t, needle => needle.isPrefixOf (c :: t) || containsList t needle

/-- Model of Python `needle in hay` on strings. -/
def strContains (hay needle : String) : Bool :=
  containsList hay.data needle.data

/-- Model of Python `str.lower()` (ASCII case folding, which covers every
name the tool compares). -/
def pyLower (s : String) : String :=
  String.mk (s.data.map Char.toLower)

/-- Model of Python `str.upper()` (ASCII case folding). -/
def pyUpper (s : String) : String :=
  String.mk (s.data.map Char.toUpper)

/-- A parsed APKINDEX record: a Python `dict` from field codes to values,
modelled as an insertion-ordered association list. -/
abbrev Record := List (String × String)

/-- The dependency graph: a Python `dict` from package name to its
dependency-name list. -/
abbrev Graph := List (String × List String)

/-- Python `dict.get`: first (hence, for dicts, the unique) match. -/
def dictGet? {α : Type} (d : List (String × α)) (k : String) : Option α :=
  match d with
  | [] => none
  | (k', v) :: rest => if k' = k then some v else dictGet? rest k

/-- Python `d[k] = v`: update the first entry for `k` in place, or append
a fresh entry at the end. -/
def dictInsert {α : Type} (d : List (String × α)) (k : String) (v : α) :
    List (String × α) :=
  match d with
  | [] => [(k, v)]
  | (k', v') :: rest =>
    if k' = k then (k', v) :: rest else (k', v') :: dictInsert rest k v

/-- One line of a block: if it contains `':'`, split at the first `':'`,
trim the value, and store it (model of the inner loop of
`parse_apkindex`). -/
def parseLine (rec : Record) (ln : List Char) : Record :=
  match splitFirst ':' ln with
  | none => rec
  | some (k, v) => dictInsert rec (String.mk k) (pyStrip (String.mk v))

/-- One block of the index text: strip it, split into lines, and fold the
`key:value` lines into a record. -/
def parseBlock (block : List Char) : Record :=
  (splitlinesList (stripList block)).foldl parseLine []

/-- Model of `parse_apkindex` (src/3etap.py lines 166-181): strip the
text, split into blank-line-separated blocks, parse each block, and keep
only the non-empty records. -/
def parse_apkindex (text : String) : List Record :=
  ((splitNN (stripList text.data)).map parseBlock).filter (fun rec => rec ≠ [])

/-- Model of `get_package_dependencies` (src/3etap.py lines 183-192):
the first record whose `P` field equals the package, else an error; its
`D` field split on whitespace (an absent or empty `D` gives `[]`). -/
def get_package_dependencies (records : List Record) (package : String) :
    Except String (List String) :=
  match records.filter (fun r => dictGet? r "P" == some package) with
  | [] => Except.error ("Пакет \x27" ++ package ++ "\x27 не найден.")
  | r :: _ =>
    match dictGet? r "D" with
    | none => Except.ok []
    | some deps_raw =>
      if deps_raw = "" then Except.ok []
      else Except.ok ((pySplitWs deps_raw).filter (fun d => d ≠ ""))

/-- One iteration of the `build_graph` loop (src/3etap.py lines 197-212):
skip a record without a truthy `P`; skip it when the non-empty filter
substring occurs in the package name; otherwise store the
whitespace-split, filtered `D` field under the package name.
`buildDeps` is the dependency-list computation of that loop body:
`[d for d in dep_field.split() if not filter_substr or filter_substr not in d]`
applied to `rec.get("D", "")`. -/
def buildDeps (filter_substr : String) (rec : Record) : List String :=
  (pySplitWs ((dictGet? rec "D").getD "")).filter
    (fun d => filter_substr == "" || !strContains d filter_substr)

def buildStep (filter_substr : String) (graph : Graph) (rec : Record) : Graph :=
  match dictGet? rec "P" with
  | none => graph
  | some pkg =>
    if pkg = "" then graph
    else if filter_substr ≠ "" ∧ strContains pkg filter_substr = true then graph
    else dictInsert graph pkg (buildDeps filter_substr rec)

/-- Model of `build_graph` (src/3etap.py lines 197-212). -/
def build_graph (records : List Record) (filter_substr : String) : Graph :=
  records.foldl (buildStep filter_substr) []

/-- `graph.get(pkg, [])` in the source: dependency names absent from the
graph act as leaves with no further dependencies. -/
def lookupDeps (g : Graph) (pkg : String) : List String :=
  (dictGet? g pkg).getD []

/-- Model of Python `list.remove`: drop the first occurrence, or fail
(`ValueError`) when the element is absent. -/
def listRemove (l : List String) (a : String) : Option (List String) :=
  if a ∈ l then some (l.erase a) else none

/-- Total number of dependency names stored in the graph; used to bound
the number of stack pushes the traversal can perform. -/
def sumDeps (g : Graph) : Nat :=
  (g.map (fun e => e.2.length)).sum

/-- Fuel that provably suffices for the traversal loop to drain its
stack: one initial push plus at most one push per stored dependency. -/
def dfsFuel (g : Graph) : Nat :=
  sumDeps g + 1

/-- The `while stack:` loop of `dfs_transitive` (src/3etap.py lines
235-243), with the stack's top at the head of the list (Python pushes and
pops at the end, so the source's `for dep in ...: stack.append(dep)`
becomes prepending the reversed filtered dependency list).  The loop runs
on explicit fuel, `none` marking fuel exhaustion; `dfsLoop_runs` below
shows the fuel `dfsFuel` always suffices, so `none` is never returned by
`dfs_transitive`. -/
def dfsLoop : Nat → Graph → List String → List String → List String →
    Option (List String)
  | _, _, _, [], result => some result
  | 0, _, _, _ :: _, _ => none
  | fuel + 1, g, visited, pkg :: rest, result =>
    if pkg ∈ visited then dfsLoop fuel g visited rest result
    else
      dfsLoop fuel g (pkg :: visited)
        ((((lookupDeps g pkg).filter (fun d => decide (d ∉ pkg :: visited))).reverse)
          ++ rest)
        (result ++ [pkg])

/-- Model of `dfs_transitive` (src/3etap.py lines 230-245): run the
explicit-stack traversal seeded with the start package, then remove the
start package from the result (`result.remove(start_pkg)`), which raises
when the start package is absent.  `none` covers both failure modes
(non-termination of the loop, `ValueError` of the removal); both are
proved unreachable below. -/
def dfs_transitive (graph : Graph) (start_pkg : String) : Option (List String) :=
  (dfsLoop (dfsFuel graph) graph [] [start_pkg] []).bind
    (fun result => listRemove result start_pkg)

/-- Ghost measure for the traversal: the number of stack pushes the loop
can still perform, i.e. the summed dependency-list lengths of the graph
entries whose key is not yet visited (counting each key once, at its
first entry, the one `lookupDeps` returns). -/
def pendingSum : Graph → Finset String → Nat
  | [], _ => 0
  | (k, ds) :: rest, vis =>
    if k ∈ vis then pendingSum rest vis
    else ds.length + pendingSum rest (insert k vis)

/-- The filter property C1 states, as a predicate on one graph entry. -/
def entryFiltered (s : String) (pkg : String) (deps : List String) : Prop :=
  strContains pkg s = false ∧ ∀ d ∈ deps, strContains d s = false

/-- The slice of a `pathlib.Path` that `fetch_index_local` consults: the
final component's name, whether the path exists, and the file content
that `read_bytes()` would return (bytes as `Nat`s below 256). -/
structure PyPath where
  name : String
  pathExists : Bool
  bytes : List Nat

/-- Model of `pathlib.PurePath.suffixes`: empty for a name ending in a
dot; otherwise strip leading dots, split the rest on `'.'`, drop the stem
and re-prefix each part with a dot. -/
def pySuffixes (name : String) : List String :=
  if name.data.getLast? = some '.' then []
  else
    ((splitChar '.' (name.data.dropWhile (fun c => c = '.'))).drop 1).map
      (fun part => String.mk ('.' :: part))

def localNotFoundMsg (name : String) : String :=
  "Файл не найден: " ++ name

def localNotIndexMsg (name : String) : String :=
  "Файл " ++ name ++
    " не является APKINDEX.tar.gz или APKINDEX.\nУкажите путь к реальному файлу индекса."

/-- Model of `fetch_index_local` (src/3etap.py lines 128-146): missing
path → not-found error; `path.suffixes == ['.tar', '.gz']` or name
lowercasing to `apkindex.tar.gz` or uppercasing to `APKINDEX` → the
file bytes; anything else → not-an-index error. -/
def fetch_index_local (path : PyPath) : Except String (List Nat) :=
  if path.pathExists = false then Except.error (localNotFoundMsg path.name)
  else if pySuffixes path.name = [".tar", ".gz"] ∨
      pyLower path.name = "apkindex.tar.gz" then Except.ok path.bytes
  else if pyUpper path.name = "APKINDEX" then Except.ok path.bytes
  else Except.error (localNotIndexMsg path.name)

/-- Model of `repo_url.endswith("/") or repo_url += "/"` normalisation at
the top of `fetch_index_remote`. -/
def normalizeUrl (repo_url : String) : String :=
  if repo_url.data.getLast? = some '/' then repo_url else repo_url ++ "/"

/-- The candidate loop of `fetch_index_remote` (src/3etap.py lines
114-124), over an abstract network oracle `net` standing for
`urlopen(url, timeout=20).read()`: `Except.error e` is a raised transport
exception rendered as text, `Except.ok data` a successful read.  A
non-empty body returns immediately; an exception is recorded in
`last_error`; an empty body is skipped without touching `last_error`. -/
def fetchLoop (net : String → Except String (List Nat)) :
    List String → Option String → Except (Option String) (List Nat)
  | [], lastError => Except.error lastError
  | url :: rest, lastError =>
    match net url with
    | Except.ok data =>
      if data = [] then fetchLoop net rest lastError else Except.ok data
    | Except.error e => fetchLoop net rest (some e)

/-- Python's rendering of `last_error` inside the f-string: the exception
text, or `None` when no exception was recorded. -/
def optErrStr : Option String → String
  | none => "None"
  | some e => e

def remoteFailMsg (u : String) (le : Option String) : String :=
  "Не удалось загрузить APKINDEX с " ++ u ++ " (" ++ optErrStr le ++ ")"

/-- Model of `fetch_index_remote` (src/3etap.py lines 105-126). -/
def fetch_index_remote (net : String → Except String (List Nat))
    (repo_url : String) : Except String (List Nat) :=
  match fetchLoop net [normalizeUrl repo_url ++ "APKINDEX.tar.gz",
      normalizeUrl repo_url ++ "APKINDEX"] none with
  | Except.ok d => Except.ok d
  | Except.error le => Except.error (remoteFailMsg (normalizeUrl repo_url) le)

/-- A candidate "fails" in the sense of C8: the request raised, or the
body was empty. -/
def candFailed : Except String (List Nat) → Bool
  | Except.ok d => d.isEmpty
  | Except.error _ => true

/-- The last underlying transport error observed across the two
candidate attempts (empty bodies raise nothing, so they leave no error). -/
def lastErrObserved (r1 r2 : Except String (List Nat)) : Option String :=
  match r2 with
  | Except.error e2 => some e2
  | Except.ok _ =>
    match r1 with
    | Except.error e1 => some e1
    | Except.ok _ => none

/-- The Unicode replacement character U+FFFD emitted by
`bytes.decode("utf-8", errors="replace")` for invalid byte sequences. -/
def replChar : Char := Char.ofNat 65533

/-- Is the byte a UTF-8 continuation byte? -/
def isCont (b : Nat) : Bool := 128 ≤ b && b < 192

/-- Code point of a two-byte UTF-8 sequence. -/
def cp2 (b1 b2 : Nat) : Nat := (b1 - 192) * 64 + (b2 - 128)

/-- Code point of a three-byte UTF-8 sequence. -/
def cp3 (b1 b2 b3 : Nat) : Nat := (b1 - 224) * 4096 + (b2 - 128) * 64 + (b3 - 128)

/-- Code point of a four-byte UTF-8 sequence. -/
def cp4 (b1 b2 b3 b4 : Nat) : Nat :=
  (b1 - 240) * 262144 + (b2 - 128) * 4096 + (b3 - 128) * 64 + (b4 - 128)

/-- Standard UTF-8 encoding of one scalar value (1-4 bytes). -/
def utf8EncodeChar (c : Char) : List Nat :=
  if c.toNat < 128 then [c.toNat]
  else if c.toNat < 2048 then [192 + c.toNat / 64, 128 + c.toNat % 64]
  else if c.toNat < 65536 then
    [224 + c.toNat / 4096, 128 + c.toNat / 64 % 64, 128 + c.toNat % 64]
  else
    [240 + c.toNat / 262144, 128 + c.toNat / 4096 % 64, 128 + c.toNat / 64 % 64,
      128 + c.toNat % 64]

/-- One step of UTF-8 decoding with replacement (model of the error
handling of `bytes.decode("utf-8", errors="replace")`): consume one
scalar starting at lead byte `b`, or emit `replChar` on a malformed
sequence (invalid lead, truncation, bad continuation, overlong form,
surrogate, out-of-range value) and resume after the offending lead. -/
def utf8Step (b : Nat) (rest : List Nat) : Char × List Nat :=
  if b < 128 then (Char.ofNat b, rest)
  else if b < 194 then (replChar, rest)
  else if b < 224 then
    match rest with
    | [] => (replChar, [])
    | b2 :: rest2 =>
      if isCont b2 then (Char.ofNat (cp2 b b2), rest2) else (replChar, b2 :: rest2)
  else if b < 240 then
    match rest with
    | [] => (replChar, [])
    | [b2] => (replChar, [b2])
    | b2 :: b3 :: rest3 =>
      if isCont b2 && isCont b3 && decide (2048 ≤ cp3 b b2 b3) &&
          (decide (cp3 b b2 b3 < 55296) || decide (57343 < cp3 b b2 b3)) then
        (Char.ofNat (cp3 b b2 b3), rest3)
      else (replChar, b2 :: b3 :: rest3)
  else if b < 245 then
    match rest with
    | [] => (replChar, [])
    | [b2] => (replChar, [b2])
    | [b2, b3] => (replChar, [b2, b3])
    | b2 :: b3 :: b4 :: rest4 =>
      if isCont b2 && isCont b3 && isCont b4 &&
          decide (65536 ≤ cp4 b b2 b3 b4) && decide (cp4 b b2 b3 b4 < 1114112) then
        (Char.ofNat (cp4 b b2 b3 b4), rest4)
      else (replChar, b2 :: b3 :: b4 :: rest4)
  else (replChar, rest)

/-- Decoding one step never lengthens the remaining input; justifies
termination of the decoder. -/
def utf8Step_snd_le (b : Nat) (rest : List Nat) :
    (utf8Step b rest).2.length ≤ rest.length := by
  rcases rest with _ | ⟨b2, _ | ⟨b3, _ | ⟨b4, rest4⟩⟩⟩ <;>
    (rw [utf8Step]; split_ifs <;> (try split) <;> (try split) <;> (try simp_all) <;>
      (try omega))

/-- Model of `bytes.decode("utf-8", errors="replace")` as a character
list: repeatedly take one `utf8Step`. -/
def utf8Decode : List Nat → List Char
  | [] => []
  | b :: rest => (utf8Step b rest).1 :: utf8Decode (utf8Step b rest).2
termination_by bs => bs.length
decreasing_by
  simp only [List.length_cons]
  exact Nat.lt_succ_of_le (utf8Step_snd_le _ _)



def utf8EncodeList : List Char → List Nat
  | [] => []
  | c :: cs => utf8EncodeChar c ++ utf8EncodeList cs

/-- The UTF-8 bytes of a string (model of `text.encode("utf-8")`). -/
def utf8EncodeStr (s : String) : List Nat := utf8EncodeList s.data

/-- Model of `raw.decode("utf-8", errors="replace")`. -/
def decodeReplace (bs : List Nat) : String := String.mk (utf8Decode bs)

/-- One entry of the tar archive, as `extract_index` consumes it:
`tarfile` member name, and the byte content `extractfile` yields (`none`
models `extractfile` returning `None`). -/
structure TarMember where
  name : String
  content : Option (List Nat)

/-- Outcome of `tarfile.open(fileobj=BytesIO(raw), mode="r:gz")` plus
`getmembers()`, abstracting the gzip/tar stdlib: `readError` models
`tarfile.ReadError` (the bytes are not a valid gzip/tar container),
`members` a successfully read archive. -/
inductive TarOpenResult where
  | readError : TarOpenResult
  | members : List TarMember → TarOpenResult

/-- Model of Python `s.endswith(suffix)`. -/
def pyEndsWith (s suffix : String) : Bool :=
  suffix.data.isSuffixOf s.data

/-- The member scan inside `extract_index`: first entry whose name ends
with (or equals) `APKINDEX` is decoded; a `None` stream or a missing
entry raises. -/
def findIndexMember : List TarMember → Except String String
  | [] => Except.error "APKINDEX не найден внутри архива."
  | m :: ms =>
    if pyEndsWith m.name "APKINDEX" || m.name == "APKINDEX" then
      match m.content with
      | none => Except.error "Не удалось извлечь APKINDEX из архива."
      | some bs => Except.ok (decodeReplace bs)
    else findIndexMember ms

/-- Model of `extract_index` (src/3etap.py lines 149-164): try the bytes
as a gzip-compressed tar; on `tarfile.ReadError` fall back to decoding
the raw bytes as UTF-8 with replacement; otherwise scan the members
(errors raised during a successful archive read propagate). -/
def extract_index (tarOpen : List Nat → TarOpenResult) (raw : List Nat) :
    Except String String :=
  match tarOpen raw with
  | TarOpenResult.readError => Except.ok (decodeReplace raw)
  | TarOpenResult.members ms => findIndexMember ms

theorem pendingSum_visit (g : Graph) :
    ∀ (vis : Finset String) (pkg : String), pkg ∉ vis →
      pendingSum g vis =
        (lookupDeps g pkg).length + pendingSum g (insert pkg vis) := by
  induction g with
  | nil => intro vis pkg _; simp [pendingSum, lookupDeps, dictGet?]
  | cons e rest ih =>
    obtain ⟨k, ds⟩ := e
    intro vis pkg hpkg
    by_cases hk : k = pkg
    · subst hk
      rw [pendingSum, if_neg hpkg, pendingSum,
        if_pos (Finset.mem_insert_self k vis)]
      simp [lookupDeps, dictGet?]
    · have hlook : lookupDeps ((k, ds) :: rest) pkg = lookupDeps rest pkg := by
        simp [lookupDeps, dictGet?, hk]
      by_cases hkv : k ∈ vis
      · rw [pendingSum, if_pos hkv, pendingSum,
          if_pos (Finset.mem_insert_of_mem hkv), hlook]
        exact ih vis pkg hpkg
      · have hk2 : k ∉ insert pkg vis := by
          simp [Finset.mem_insert, hk, hkv]

        rw [pendingSum, if_neg hkv, pendingSum, if_neg hk2, hlook]
        have hpkg2 : pkg ∉ insert k vis := by
          simp [Finset.mem_insert, hpkg]
          exact fun h => hk h.symm
        have := ih (insert k vis) pkg hpkg2
        rw [Finset.Insert.comm] at this
        omega

theorem pendingSum_le_sumDeps (g : Graph) :
    ∀ vis : Finset String, pendingSum g vis ≤ sumDeps g := by
  induction g with
  | nil => intro vis; simp [pendingSum, sumDeps]
  | cons e rest ih =>
    obtain ⟨k, ds⟩ := e
    intro vis
    have h1 := ih vis
    have h2 := ih (insert k vis)
    rw [pendingSum]
    simp only [sumDeps, List.map_cons, List.sum_cons] at h1 h2 ⊢
    split <;> omega

/-- The traversal loop always drains its stack within `dfsFuel`-style
fuel: the stack length plus the pending-push measure bounds the number of
remaining iterations. -/
theorem dfsLoop_runs :
    ∀ (fuel : Nat) (g : Graph) (visited stack result : List String),
      stack.length + pendingSum g visited.toFinset ≤ fuel →
      ∃ res, dfsLoop fuel g visited stack result = some res := by
  intro fuel
  induction fuel with
  | zero =>
    intro g visited stack result h
    match stack with
    | [] => exact ⟨result, rfl⟩
    | pkg :: rest => simp at h
  | succ fuel ih =>
    intro g visited stack result h
    match stack with
    | [] => exact ⟨result, rfl⟩
    | pkg :: rest =>
      by_cases hv : pkg ∈ visited
      · rw [dfsLoop, if_pos hv]
        apply ih
        simp only [List.length_cons] at h
        omega
      · rw [dfsLoop, if_neg hv]
        have hpkg : pkg ∉ visited.toFinset := by simpa using hv
        have hvisit := pendingSum_visit g visited.toFinset pkg hpkg
        have hcons : (pkg :: visited).toFinset = insert pkg visited.toFinset := by
          simp
        apply ih
        rw [hcons]
        have hfilt :
            ((lookupDeps g pkg).filter
              (fun d => decide (d ∉ pkg :: visited))).length ≤
              (lookupDeps g pkg).length := List.length_filter_le _ _
        simp only [List.length_append, List.length_reverse, List.length_cons] at h ⊢
        omega

/-- The result list only grows during the traversal loop. -/
theorem dfsLoop_result_prefix :
    ∀ (fuel : Nat) (g : Graph) (visited stack result res : List String),
      dfsLoop fuel g visited stack result = some res → result <+: res := by
  intro fuel
  induction fuel with
  | zero =>
    intro g visited stack result res h
    match stack with
    | [] =>
      rw [dfsLoop] at h
      cases h
      exact List.prefix_refl _
    | pkg :: rest => exact absurd h (by rw [dfsLoop]; simp)
  | succ fuel ih =>
    intro g visited stack result res h
    match stack with
    | [] =>
      rw [dfsLoop] at h
      cases h
      exact List.prefix_refl _
    | pkg :: rest =>
      rw [dfsLoop] at h
      split at h
      · exact ih _ _ _ _ _ h
      · exact (List.prefix_append result [pkg]).trans (ih _ _ _ _ _ h)

/-- The traversal never records a package twice: the result stays
duplicate-free, given that everything already in it is already visited. -/
theorem dfsLoop_nodup :
    ∀ (fuel : Nat) (g : Graph) (visited stack result res : List String),
      dfsLoop fuel g visited stack result = some res →
      result.Nodup → (∀ x ∈ result, x ∈ visited) → res.Nodup := by
  intro fuel
  induction fuel with
  | zero =>
    intro g visited stack result res h hnd _
    match stack with
    | [] => rw [dfsLoop] at h; cases h; exact hnd
    | pkg :: rest => exact absurd h (by rw [dfsLoop]; simp)
  | succ fuel ih =>
    intro g visited stack result res h hnd hsub
    match stack with
    | [] => rw [dfsLoop] at h; cases h; exact hnd
    | pkg :: rest =>
      rw [dfsLoop] at h
      split at h
      · exact ih _ _ _ _ _ h hnd hsub
      · rename_i hv
        refine ih _ _ _ _ _ h ?_ ?_
        · have hnotin : pkg ∉ result := fun hmem => hv (hsub pkg hmem)
          simp [List.nodup_append, hnd, hnotin]
        · intro x hx
          rcases List.mem_append.mp hx with hx | hx
          · exact List.mem_cons_of_mem _ (hsub x hx)
          · simp at hx
            simp [hx]

/-- Packaged facts about a full traversal from a start package: the loop
returns within the provided fuel, the start package heads the result, and
the result is duplicate-free. -/
theorem dfsLoop_start (g : Graph) (s : String) :
    ∃ res, dfsLoop (dfsFuel g) g [] [s] [] = some res ∧
      res.head? = some s ∧ res.Nodup := by
  have hfuel : ([s] : List String).length +
      pendingSum g ([] : List String).toFinset ≤ dfsFuel g := by
    have := pendingSum_le_sumDeps g ([] : List String).toFinset
    simp only [List.length_singleton, dfsFuel]
    omega
  obtain ⟨res, hres⟩ := dfsLoop_runs (dfsFuel g) g [] [s] [] hfuel
  have hnd : res.Nodup := dfsLoop_nodup _ _ _ _ _ _ hres (by simp) (by simp)
  have h1 : dfsLoop (sumDeps g + 1) g [] [s] [] = some res := hres
  rw [dfsLoop, if_neg (List.not_mem_nil s), List.nil_append] at h1
  have hpre : [s] <+: res := dfsLoop_result_prefix _ _ _ _ _ _ h1
  obtain ⟨t, ht⟩ := hpre
  exact ⟨res, hres, by rw [← ht]; rfl, hnd⟩

/-- C3: `dfs_transitive` terminates on every finite dependency graph,
cycles included; on the two-cycle `A → B → A` it returns exactly `[B]`. -/
theorem dfs_transitive_terminates :
    (∀ (g : Graph) (s : String), (dfs_transitive g s).isSome = true) ∧
    dfs_transitive [("A", ["B"]), ("B", ["A"])] "A" = some ["B"] := by
  constructor
  · intro g s
    obtain ⟨res, hres, hhead, _⟩ := dfsLoop_start g s
    have hs : s ∈ res := by
      cases res with
      | nil => simp at hhead
      | cons a t => simp only [List.head?_cons, Option.some.injEq] at hhead; simp [hhead]
    rw [dfs_transitive, hres]
    simp [listRemove, hs]
  · decide

/-- C2: whenever `dfs_transitive` returns a list, that list does not
contain the start package and has no duplicate elements. -/
theorem dfs_transitive_no_start_nodup (g : Graph) (s : String) (l : List String)
    (h : dfs_transitive g s = some l) : s ∉ l ∧ l.Nodup := by
  rw [dfs_transitive] at h
  cases hres : dfsLoop (dfsFuel g) g [] [s] [] with
  | none => rw [hres] at h; cases h
  | some res =>
    rw [hres] at h
    have h' : listRemove res s = some l := h
    rw [listRemove] at h'
    split at h'
    · rename_i hs
      cases h'
      have hnd : res.Nodup := dfsLoop_nodup _ _ _ _ _ _ hres (by simp) (by simp)
      refine ⟨?_, hnd.erase s⟩
      intro hmem
      rw [hnd.mem_erase_iff] at hmem
      exact hmem.1 rfl
    · cases h'

/-- Witness for C2 at the two-cycle graph. -/
theorem dfs_transitive_no_start_nodup_witness :
    "A" ∉ (["B"] : List String) ∧ (["B"] : List String).Nodup :=
  dfs_transitive_no_start_nodup [("A", ["B"]), ("B", ["A"])] "A" ["B"] (by decide)

/-- C10: the traversal loop always succeeds and always lists the start
package first, so the subsequent `result.remove(start_pkg)` can never hit
its element-not-found branch. -/
theorem dfs_remove_start_safe (g : Graph) (s : String) :
    ∃ res, dfsLoop (dfsFuel g) g [] [s] [] = some res ∧
      res.head? = some s ∧ listRemove res s ≠ none := by
  obtain ⟨res, hres, hhead, _⟩ := dfsLoop_start g s
  have hs : s ∈ res := by
    cases res with
    | nil => simp at hhead
    | cons a t => simp only [List.head?_cons, Option.some.injEq] at hhead; simp [hhead]
  exact ⟨res, hres, hhead, by simp [listRemove, hs]⟩

/-- Lookup misses for keys outside the association list. -/
theorem dictGet?_eq_none {α : Type} (d : List (String × α)) (k : String)
    (h : k ∉ d.map Prod.fst) : dictGet? d k = none := by
  induction d with
  | nil => rfl
  | cons e rest ih =>
    obtain ⟨k', v⟩ := e
    simp only [List.map_cons, List.mem_cons] at h
    push_neg at h
    rw [dictGet?, if_neg (Ne.symm h.1)]
    exact ih h.2

/-- C6: a package matching no record makes `get_package_dependencies`
raise, while a start package absent from the graph makes `dfs_transitive`
return the empty list without error. -/
theorem unknown_package_asymmetry :
    (∀ (records : List Record) (package : String),
      (∀ r ∈ records, dictGet? r "P" ≠ some package) →
      get_package_dependencies records package =
        Except.error ("Пакет \x27" ++ package ++ "\x27 не найден.")) ∧
    (∀ (g : Graph) (s : String), s ∉ g.map Prod.fst →
      dfs_transitive g s = some []) := by
  constructor
  · intro records package hnone
    have hfilter :
        records.filter (fun r => dictGet? r "P" == some package) = [] := by
      rw [List.filter_eq_nil_iff]
      intro r hr
      simpa using hnone r hr
    rw [get_package_dependencies, hfilter]
  · intro g s hs
    have hlook : lookupDeps g s = [] := by
      simp [lookupDeps, dictGet?_eq_none g s hs]
    have h1 : dfsLoop (sumDeps g + 1) g [] [s] [] = some [s] := by
      rw [dfsLoop, if_neg (List.not_mem_nil s), hlook]
      simp [dfsLoop]
    rw [dfs_transitive]
    have h2 : dfsLoop (dfsFuel g) g [] [s] [] = some [s] := h1
    rw [h2]
    simp [listRemove]

/-- Witness for C6 at concrete inputs for both halves. -/
theorem unknown_package_asymmetry_witness :
    get_package_dependencies [[("P", "x")]] "y" =
      Except.error ("Пакет \x27" ++ "y" ++ "\x27 не найден.") ∧
    dfs_transitive [("a", ["b"])] "z" = some [] :=
  ⟨unknown_package_asymmetry.1 [[("P", "x")]] "y" (by decide),
   unknown_package_asymmetry.2 [("a", ["b"])] "z" (by decide)⟩

example : dfs_transitive [("busybox", ["libc", "musl"]), ("libc", []), ("musl", [])]
    "busybox" = some ["musl", "libc"] := by decide

example : dfs_transitive [("A", ["B"]), ("B", ["A"])] "A" = some ["B"] := by decide

example : dfs_transitive [("a", ["b"])] "z" = some [] := by decide

example : parse_apkindex "P:busybox\nD:libc musl\n\nP:libc\n\nP:musl\n" =
    [[("P", "busybox"), ("D", "libc musl")], [("P", "libc")], [("P", "musl")]] := by
  decide

example :
    build_graph (parse_apkindex "P:busybox\nD:libc musl\n\nP:libc\n\nP:musl\n") "" =
    [("busybox", ["libc", "musl"]), ("libc", []), ("musl", [])] := by
  decide

/-- C4: the worked scenario — parsing the three-package index with the
empty filter yields exactly the expected graph, and the transitive
dependencies of `busybox` come back in LIFO stack order `[musl, libc]`. -/
theorem pipeline_scenario :
    build_graph (parse_apkindex "P:busybox\nD:libc musl\n\nP:libc\n\nP:musl\n") "" =
      [("busybox", ["libc", "musl"]), ("libc", []), ("musl", [])] ∧
    dfs_transitive [("busybox", ["libc", "musl"]), ("libc", []), ("musl", [])]
      "busybox" = some ["musl", "libc"] := by
  decide

/-- A dict assignment only adds the assigned pair to the entries. -/
theorem mem_dictInsert {α : Type} (d : List (String × α)) (k : String) (v : α)
    (p : String × α) (h : p ∈ dictInsert d k v) : p = (k, v) ∨ p ∈ d := by
  induction d with
  | nil => simpa [dictInsert] using h
  | cons e rest ih =>
    obtain ⟨k', v'⟩ := e
    rw [dictInsert] at h
    split at h
    · rename_i hk
      rcases List.mem_cons.mp h with h | h
      · left; rw [h, hk]
      · right; exact List.mem_cons_of_mem _ h
    · rcases List.mem_cons.mp h with h | h
      · right; rw [h]; exact List.mem_cons_self _ _
      · rcases ih h with h | h
        · left; exact h
        · right; exact List.mem_cons_of_mem _ h

theorem buildStep_preserves (s : String) (hs : s ≠ "") (g : Graph) (rec : Record)
    (hg : ∀ pkg deps, (pkg, deps) ∈ g → entryFiltered s pkg deps) :
    ∀ pkg deps, (pkg, deps) ∈ buildStep s g rec → entryFiltered s pkg deps := by
  intro pkg deps hmem
  rw [buildStep] at hmem
  cases hP : dictGet? rec "P" with
  | none => rw [hP] at hmem; exact hg pkg deps hmem
  | some pkg' =>
    rw [hP] at hmem
    dsimp only at hmem
    by_cases h1 : pkg' = ""
    · rw [if_pos h1] at hmem; exact hg pkg deps hmem
    · rw [if_neg h1] at hmem
      by_cases hcond : s ≠ "" ∧ strContains pkg' s = true
      · rw [if_pos hcond] at hmem; exact hg pkg deps hmem
      · rw [if_neg hcond] at hmem
        rcases mem_dictInsert _ _ _ _ hmem with heq | hin
        · rw [Prod.mk.injEq] at heq
          obtain ⟨h1, h2⟩ := heq
          subst h1
          subst h2
          constructor
          · have hc : ¬strContains pkg s = true := fun hb => hcond ⟨hs, hb⟩
            simpa using hc
          · intro d hd
            have hpred := (List.mem_filter.mp hd).2
            simp only [Bool.or_eq_true, beq_iff_eq, Bool.not_eq_true'] at hpred
            rcases hpred with h | h
            · exact absurd h hs
            · exact h
        · exact hg pkg deps hin

theorem build_graph_foldl_filtered (s : String) (hs : s ≠ "") :
    ∀ (records : List Record) (g : Graph),
      (∀ pkg deps, (pkg, deps) ∈ g → entryFiltered s pkg deps) →
      ∀ pkg deps, (pkg, deps) ∈ records.foldl (buildStep s) g →
        entryFiltered s pkg deps := by
  intro records
  induction records with
  | nil => intro g hg; exact hg
  | cons rec rest ih =>
    intro g hg
    exact ih (buildStep s g rec) (buildStep_preserves s hs g rec hg)

/-- C1: with a non-empty filter substring, no graph key and no dependency
name in any value list of `build_graph` contains the filter substring. -/
theorem build_graph_filter_invariant (records : List Record) (s : String)
    (hs : s ≠ "") (pkg : String) (deps : List String)
    (h : (pkg, deps) ∈ build_graph records s) :
    strContains pkg s = false ∧ ∀ d ∈ deps, strContains d s = false :=
  build_graph_foldl_filtered s hs records [] (by intro _ _ h; cases h) pkg deps h

/-- Witness for C1 on a concrete record list and filter. -/
theorem build_graph_filter_invariant_witness :
    strContains "busybox" "zz" = false ∧ strContains "libc" "zz" = false := by
  have h := build_graph_filter_invariant [[("P", "busybox"), ("D", "libc musl")]]
    "zz" (by decide) "busybox" ["libc", "musl"] (by decide)
  exact ⟨h.1, h.2 "libc" (by decide)⟩

theorem dictGet?_dictInsert_self {α : Type} (d : List (String × α)) (k : String)
    (v : α) : dictGet? (dictInsert d k v) k = some v := by
  induction d with
  | nil => simp [dictInsert, dictGet?]
  | cons e rest ih =>
    obtain ⟨k', v'⟩ := e
    rw [dictInsert]
    by_cases hk : k' = k
    · rw [if_pos hk, dictGet?, if_pos hk]
    · rw [if_neg hk, dictGet?, if_neg hk]
      exact ih

theorem dictGet?_dictInsert_ne {α : Type} (d : List (String × α)) (k k' : String)
    (v : α) (h : k' ≠ k) : dictGet? (dictInsert d k v) k' = dictGet? d k' := by
  induction d with
  | nil => simp [dictInsert, dictGet?, Ne.symm h]
  | cons e rest ih =>
    obtain ⟨k'', v''⟩ := e
    rw [dictInsert]
    by_cases hk : k'' = k
    · rw [if_pos hk, dictGet?, dictGet?]
      rw [if_neg (hk ▸ fun hh : k'' = k' => h (hk ▸ hh).symm),
        if_neg (fun hh : k'' = k' => h ((hk.symm.trans hh).symm))]
    · rw [if_neg hk, dictGet?, dictGet?]
      by_cases hk2 : k'' = k'
      · rw [if_pos hk2, if_pos hk2]
      · rw [if_neg hk2, if_neg hk2]
        exact ih

/-- A `build_graph` iteration on a record whose `P` field is not `pkg`
leaves the graph entry for `pkg` unchanged. -/
theorem buildStep_lookup_ne (s : String) (G : Graph) (r : Record) (pkg : String)
    (h : dictGet? r "P" ≠ some pkg) :
    dictGet? (buildStep s G r) pkg = dictGet? G pkg := by
  rw [buildStep]
  cases hP : dictGet? r "P" with
  | none => rfl
  | some p' =>
    have hp' : p' ≠ pkg := fun hh => h (hP.trans (by rw [hh]))
    dsimp only
    by_cases h1 : p' = ""
    · rw [if_pos h1]
    · rw [if_neg h1]
      by_cases h2 : s ≠ "" ∧ strContains p' s = true
      · rw [if_pos h2]
      · rw [if_neg h2]
        exact dictGet?_dictInsert_ne G p' pkg _ (fun hh => hp' hh.symm)

theorem build_graph_foldl_no_match (s : String) (pkg : String) :
    ∀ (l : List Record) (G : Graph),
      (∀ r ∈ l, dictGet? r "P" ≠ some pkg) →
      dictGet? (l.foldl (buildStep s) G) pkg = dictGet? G pkg := by
  intro l
  induction l with
  | nil => intro G _; rfl
  | cons r rest ih =>
    intro G h
    rw [List.foldl_cons, ih (buildStep s G r) (fun r' hr' => h r' (List.mem_cons_of_mem _ hr')),
      buildStep_lookup_ne s G r pkg (h r (List.mem_cons_self _ _))]

/-- A `build_graph` iteration on a record whose `P` field is the non-empty
`pkg` (with the empty filter) stores that record's dependency list. -/
theorem buildStep_lookup_match (G : Graph) (r : Record) (pkg : String)
    (hP : dictGet? r "P" = some pkg) (hne : pkg ≠ "") :
    dictGet? (buildStep "" G r) pkg = some (buildDeps "" r) := by
  rw [buildStep, hP]
  dsimp only
  rw [if_neg hne, if_neg (fun h => h.1 rfl)]
  exact dictGet?_dictInsert_self G pkg _

/-- C9: with duplicate records for the same non-empty package name,
`get_package_dependencies` answers from the first matching record while
`build_graph` keeps the dependency list of the last matching record. -/
theorem duplicate_record_resolution (l1 l2 l3 : List Record) (r1 r2 : Record)
    (pkg : String) (hpkg : pkg ≠ "")
    (h1 : ∀ r ∈ l1, dictGet? r "P" ≠ some pkg)
    (h3 : ∀ r ∈ l3, dictGet? r "P" ≠ some pkg)
    (hr1 : dictGet? r1 "P" = some pkg)
    (hr2 : dictGet? r2 "P" = some pkg) :
    get_package_dependencies (l1 ++ r1 :: (l2 ++ r2 :: l3)) pkg =
      get_package_dependencies [r1] pkg ∧
    dictGet? (build_graph (l1 ++ r1 :: (l2 ++ r2 :: l3)) "") pkg =
      dictGet? (build_graph [r2] "") pkg := by
  constructor
  · have hfl : (l1 ++ r1 :: (l2 ++ r2 :: l3)).filter
        (fun r => dictGet? r "P" == some pkg) =
        r1 :: ((l2 ++ r2 :: l3).filter (fun r => dictGet? r "P" == some pkg)) := by
      rw [List.filter_append]
      rw [List.filter_eq_nil_iff.mpr (by intro r hr; simpa using h1 r hr)]
      rw [List.nil_append, List.filter_cons_of_pos (by simpa using hr1)]
    have hfr : ([r1] : List Record).filter
        (fun r => dictGet? r "P" == some pkg) = [r1] := by
      rw [List.filter_cons_of_pos (by simpa using hr1), List.filter_nil]
    rw [get_package_dependencies, get_package_dependencies, hfl, hfr]
  · have hsplit : l1 ++ r1 :: (l2 ++ r2 :: l3) =
        ((l1 ++ r1 :: l2) ++ [r2]) ++ l3 := by simp
    rw [build_graph, hsplit, List.foldl_append, List.foldl_append,
      build_graph_foldl_no_match "" pkg l3 _ h3]
    simp only [List.foldl_cons, List.foldl_nil]
    rw [buildStep_lookup_match _ r2 pkg hr2 hpkg, build_graph]
    simp only [List.foldl_cons, List.foldl_nil]
    rw [buildStep_lookup_match [] r2 pkg hr2 hpkg]

/-- Witness for C9 with two concrete duplicate records. -/
theorem duplicate_record_resolution_witness :
    get_package_dependencies [[("P", "x"), ("D", "a")], [("P", "x"), ("D", "b")]] "x" =
      get_package_dependencies [[("P", "x"), ("D", "a")]] "x" ∧
    dictGet? (build_graph [[("P", "x"), ("D", "a")], [("P", "x"), ("D", "b")]] "") "x" =
      dictGet? (build_graph [[("P", "x"), ("D", "b")]] "") "x" :=
  duplicate_record_resolution [] [] [] [("P", "x"), ("D", "a")] [("P", "x"), ("D", "b")]
    "x" (by decide) (by intro r hr; cases hr) (by intro r hr; cases hr)
    (by decide) (by decide)

example : pySuffixes "a.b.tar.gz" = [".b", ".tar", ".gz"] := by decide

example : fetch_index_local ⟨"APKINDEX.tar.gz", true, [9]⟩ = Except.ok [9] := rfl

/-- Counterexample to C7 as stated: the file `a.b.tar.gz` exists and its
final two extensions are `.tar` and `.gz`, yet the code rejects it,
because the source compares the entire `path.suffixes` list (here
`['.b', '.tar', '.gz']`) against `['.tar', '.gz']`. -/
theorem fetch_index_local_claim_counterexample :
    (pySuffixes "a.b.tar.gz").drop 1 = [".tar", ".gz"] ∧
    fetch_index_local ⟨"a.b.tar.gz", true, [7]⟩ =
      Except.error (localNotIndexMsg "a.b.tar.gz") ∧
    fetch_index_local ⟨"a.b.tar.gz", true, [7]⟩ ≠ Except.ok [7] := by
  refine ⟨by decide, rfl, ?_⟩
  intro h
  rw [show fetch_index_local ⟨"a.b.tar.gz", true, [7]⟩ =
    Except.error (localNotIndexMsg "a.b.tar.gz") from rfl] at h
  exact Except.noConfusion h

theorem localMsgs_distinct (name : String) :
    localNotFoundMsg name ≠ localNotIndexMsg name := by
  intro h
  have hd := congrArg (fun s => s.data.length) h
  simp only [localNotFoundMsg, localNotIndexMsg, String.data_append,
    List.length_append] at hd
  have e1 : ("Файл не найден: " : String).data.length = 16 := by decide
  have e2 : ("Файл " : String).data.length = 5 := by decide
  have e3 : (" не является APKINDEX.tar.gz или APKINDEX.\nУкажите путь к реальному файлу индекса." : String).data.length = 82 := by decide
  rw [e1, e2, e3] at hd
  omega

/-- C7 (amended): for an existing path the single-file fetcher returns
the file bytes exactly when the name lowercases to `apkindex.tar.gz`, or
its complete extension list is exactly `[.tar, .gz]`, or the name
uppercases to `APKINDEX`; other existing paths give the
not-an-index-artifact error, missing paths give the distinct not-found
error. -/
theorem fetch_index_local_spec (p : PyPath) :
    (p.pathExists = false →
      fetch_index_local p = Except.error (localNotFoundMsg p.name)) ∧
    (p.pathExists = true →
      (fetch_index_local p = Except.ok p.bytes ↔
        (pyLower p.name = "apkindex.tar.gz" ∨ pySuffixes p.name = [".tar", ".gz"] ∨
          pyUpper p.name = "APKINDEX"))) ∧
    (p.pathExists = true →
      ¬(pyLower p.name = "apkindex.tar.gz" ∨ pySuffixes p.name = [".tar", ".gz"] ∨
          pyUpper p.name = "APKINDEX") →
      fetch_index_local p = Except.error (localNotIndexMsg p.name)) ∧
    localNotFoundMsg p.name ≠ localNotIndexMsg p.name := by
  refine ⟨?_, ?_, ?_, localMsgs_distinct p.name⟩
  · intro h
    rw [fetch_index_local, if_pos h]
  · intro h
    have hne : ¬(p.pathExists = false) := by simp [h]
    rw [fetch_index_local, if_neg hne]
    by_cases c1 : pySuffixes p.name = [".tar", ".gz"] ∨ pyLower p.name = "apkindex.tar.gz"
    · rw [if_pos c1]
      constructor
      · intro _
        rcases c1 with c | c
        · exact Or.inr (Or.inl c)
        · exact Or.inl c
      · intro _; rfl
    · rw [if_neg c1]
      by_cases c2 : pyUpper p.name = "APKINDEX"
      · rw [if_pos c2]
        exact ⟨fun _ => Or.inr (Or.inr c2), fun _ => rfl⟩
      · rw [if_neg c2]
        constructor
        · intro hok; exact Except.noConfusion hok
        · intro hc
          rcases hc with c | c | c
          · exact absurd (Or.inr c) c1
          · exact absurd (Or.inl c) c1
          · exact absurd c c2
  · intro h hnc
    have hne : ¬(p.pathExists = false) := by simp [h]
    have c1 : ¬(pySuffixes p.name = [".tar", ".gz"] ∨
        pyLower p.name = "apkindex.tar.gz") := by
      intro c
      rcases c with c | c
      · exact hnc (Or.inr (Or.inl c))
      · exact hnc (Or.inl c)
    have c2 : ¬(pyUpper p.name = "APKINDEX") := fun c => hnc (Or.inr (Or.inr c))
    rw [fetch_index_local, if_neg hne, if_neg c1, if_neg c2]

/-- Witness for the amended C7 at concrete paths. -/
theorem fetch_index_local_spec_witness :
    fetch_index_local ⟨"apkindex", true, [1]⟩ = Except.ok [1] ∧
    fetch_index_local ⟨"readme.txt", false, [2]⟩ =
      Except.error (localNotFoundMsg "readme.txt") :=
  ⟨((fetch_index_local_spec ⟨"apkindex", true, [1]⟩).2.1 rfl).mpr
      (Or.inr (Or.inr (by decide))),
   (fetch_index_local_spec ⟨"readme.txt", false, [2]⟩).1 rfl⟩

theorem isPrefixOf_append_self : ∀ (l t : List Char), l.isPrefixOf (l ++ t) = true := by
  intro l
  induction l with
  | nil => intro t; simp [List.isPrefixOf]
  | cons c rest ih => intro t; simp [List.isPrefixOf, ih]

theorem containsList_append (pre needle post : List Char) :
    containsList (pre ++ (needle ++ post)) needle = true := by
  induction pre with
  | nil =>
    rw [List.nil_append]
    cases hnp : needle ++ post with
    | nil =>
      have : needle = [] := by
        cases needle with
        | nil => rfl
        | cons a b => simp at hnp
      subst this
      simp [containsList, List.isPrefixOf]
    | cons c t =>
      rw [containsList, ← hnp, isPrefixOf_append_self, Bool.true_or]
  | cons c rest ih =>
    rw [List.cons_append, containsList, ih, Bool.or_true]

/-- A string built as `pre ++ needle ++ post` contains `needle`. -/
theorem strContains_of_data (hay needle : String) (pre post : List Char)
    (h : hay.data = pre ++ (needle.data ++ post)) : strContains hay needle = true := by
  rw [strContains, h]
  exact containsList_append _ _ _

theorem strContains_remote_url (repo_url : String) (le : Option String) :
    strContains (remoteFailMsg (normalizeUrl repo_url) le) repo_url = true := by
  by_cases hs : repo_url.data.getLast? = some '/'
  · refine strContains_of_data _ _ ("Не удалось загрузить APKINDEX с " : String).data
      (" (" ++ optErrStr le ++ ")").data ?_
    rw [remoteFailMsg, normalizeUrl, if_pos hs]
    simp [String.data_append, List.append_assoc]
  · refine strContains_of_data _ _ ("Не удалось загрузить APKINDEX с " : String).data
      ("/" ++ " (" ++ optErrStr le ++ ")").data ?_
    rw [remoteFailMsg, normalizeUrl, if_neg hs]
    simp [String.data_append, List.append_assoc]

theorem strContains_remote_err (u : String) (e : String) :
    strContains (remoteFailMsg u (some e)) e = true := by
  refine strContains_of_data _ _
    ("Не удалось загрузить APKINDEX с " ++ u ++ " (" : String).data
    (")" : String).data ?_
  rw [remoteFailMsg]
  simp [optErrStr, String.data_append, List.append_assoc]

/-- C8: if the first candidate URL fails (exception or empty body) the
second is tried and a non-empty success there is returned; if both
candidates fail, the raised fetch-error message embeds the base URL and
the last underlying transport error observed. -/
theorem fetch_index_remote_error_handling
    (net : String → Except String (List Nat)) (repo_url : String) :
    (candFailed (net (normalizeUrl repo_url ++ "APKINDEX.tar.gz")) = true →
      ∀ d : List Nat, d ≠ [] →
        net (normalizeUrl repo_url ++ "APKINDEX") = Except.ok d →
        fetch_index_remote net repo_url = Except.ok d) ∧
    (candFailed (net (normalizeUrl repo_url ++ "APKINDEX.tar.gz")) = true →
      candFailed (net (normalizeUrl repo_url ++ "APKINDEX")) = true →
      fetch_index_remote net repo_url =
        Except.error (remoteFailMsg (normalizeUrl repo_url)
          (lastErrObserved (net (normalizeUrl repo_url ++ "APKINDEX.tar.gz"))
            (net (normalizeUrl repo_url ++ "APKINDEX")))) ∧
      strContains (remoteFailMsg (normalizeUrl repo_url)
        (lastErrObserved (net (normalizeUrl repo_url ++ "APKINDEX.tar.gz"))
          (net (normalizeUrl repo_url ++ "APKINDEX")))) repo_url = true ∧
      ∀ e : String,
        lastErrObserved (net (normalizeUrl repo_url ++ "APKINDEX.tar.gz"))
          (net (normalizeUrl repo_url ++ "APKINDEX")) = some e →
        strContains (remoteFailMsg (normalizeUrl repo_url)
          (lastErrObserved (net (normalizeUrl repo_url ++ "APKINDEX.tar.gz"))
            (net (normalizeUrl repo_url ++ "APKINDEX")))) e = true) := by
  constructor
  · intro h1 d hd h2
    rw [fetch_index_remote]
    cases hc1 : net (normalizeUrl repo_url ++ "APKINDEX.tar.gz") with
    | ok d1 =>
      rw [hc1, candFailed] at h1
      have hd1 : d1 = [] := List.isEmpty_iff.mp h1
      subst hd1
      simp [fetchLoop, hc1, h2, hd]
    | error e1 =>
      simp [fetchLoop, hc1, h2, hd]
  · intro h1 h2
    refine ⟨?_, strContains_remote_url repo_url _, ?_⟩
    · rw [fetch_index_remote]
      cases hc1 : net (normalizeUrl repo_url ++ "APKINDEX.tar.gz") with
      | ok d1 =>
        rw [hc1, candFailed] at h1
        have hd1 : d1 = [] := List.isEmpty_iff.mp h1
        subst hd1
        cases hc2 : net (normalizeUrl repo_url ++ "APKINDEX") with
        | ok d2 =>
          rw [hc2, candFailed] at h2
          have hd2 : d2 = [] := List.isEmpty_iff.mp h2
          subst hd2
          simp [fetchLoop, hc1, hc2, lastErrObserved]
        | error e2 =>
          simp [fetchLoop, hc1, hc2, lastErrObserved]
      | error e1 =>
        cases hc2 : net (normalizeUrl repo_url ++ "APKINDEX") with
        | ok d2 =>
          rw [hc2, candFailed] at h2
          have hd2 : d2 = [] := List.isEmpty_iff.mp h2
          subst hd2
          simp [fetchLoop, hc1, hc2, lastErrObserved]
        | error e2 =>
          simp [fetchLoop, hc1, hc2, lastErrObserved]
    · intro e he
      rw [he]
      exact strContains_remote_err _ e

/-- Witness for C8: both candidates raise, the message carries the base
URL and the second (last) error. -/
theorem fetch_index_remote_error_handling_witness :
    fetch_index_remote (fun url => if url = "http://r/APKINDEX.tar.gz"
        then Except.error "e1" else Except.error "e2") "http://r" =
      Except.error (remoteFailMsg "http://r/" (some "e2")) ∧
    strContains (remoteFailMsg "http://r/" (some "e2")) "http://r" = true ∧
    strContains (remoteFailMsg "http://r/" (some "e2")) "e2" = true := by
  have h := (fetch_index_remote_error_handling
    (fun url => if url = "http://r/APKINDEX.tar.gz"
      then Except.error "e1" else Except.error "e2") "http://r").2
    (by decide) (by decide)
  exact ⟨h.1, h.2.1, h.2.2 "e2" (by decide)⟩

/-- A validly encoded character decodes back to itself, whatever bytes
follow. -/
theorem utf8Decode_encode_cons (c : Char) (rest : List Nat) :
    utf8Decode (utf8EncodeChar c ++ rest) = c :: utf8Decode rest := by
  have hv : c.toNat < 55296 ∨ (57343 < c.toNat ∧ c.toNat < 1114112) := c.valid
  by_cases h1 : c.toNat < 128
  · rw [show utf8EncodeChar c = [c.toNat] from by rw [utf8EncodeChar, if_pos h1]]
    rw [List.cons_append, List.nil_append, utf8Decode]
    rw [show utf8Step c.toNat rest = (c, rest) from by
      rw [utf8Step.eq_def, if_pos h1, Char.ofNat_toNat]]
  · by_cases h2 : c.toNat < 2048
    · rw [show utf8EncodeChar c = [192 + c.toNat / 64, 128 + c.toNat % 64] from by
        rw [utf8EncodeChar, if_neg h1, if_pos h2]]
      simp only [List.cons_append, List.nil_append]
      rw [utf8Decode]
      rw [show utf8Step (192 + c.toNat / 64) ((128 + c.toNat % 64) :: rest) =
          (c, rest) from by
        rw [utf8Step, if_neg (by omega), if_neg (by omega), if_pos (by omega)]
        try dsimp only
        rw [if_pos (show isCont (128 + c.toNat % 64) = true from by
          simp only [isCont, Bool.and_eq_true, decide_eq_true_eq]; omega)]
        have hcp : cp2 (192 + c.toNat / 64) (128 + c.toNat % 64) = c.toNat := by
          rw [cp2]; omega
        rw [hcp, Char.ofNat_toNat]]
    · by_cases h3 : c.toNat < 65536
      · rw [show utf8EncodeChar c =
            [224 + c.toNat / 4096, 128 + c.toNat / 64 % 64, 128 + c.toNat % 64] from by
          rw [utf8EncodeChar, if_neg h1, if_neg h2, if_pos h3]]
        simp only [List.cons_append, List.nil_append]
        rw [utf8Decode]
        rw [show utf8Step (224 + c.toNat / 4096)
            ((128 + c.toNat / 64 % 64) :: (128 + c.toNat % 64) :: rest) = (c, rest) from by
          rw [utf8Step, if_neg (by omega), if_neg (by omega), if_neg (by omega),
            if_pos (by omega)]
          try dsimp only
          have hcp : cp3 (224 + c.toNat / 4096) (128 + c.toNat / 64 % 64)
              (128 + c.toNat % 64) = c.toNat := by
            rw [cp3]; omega
          rw [if_pos (by
            simp only [isCont, hcp, Bool.and_eq_true, Bool.or_eq_true, decide_eq_true_eq]
            omega)]
          rw [hcp, Char.ofNat_toNat]]
      · rw [show utf8EncodeChar c =
            [240 + c.toNat / 262144, 128 + c.toNat / 4096 % 64,
              128 + c.toNat / 64 % 64, 128 + c.toNat % 64] from by
          rw [utf8EncodeChar, if_neg h1, if_neg h2, if_neg h3]]
        simp only [List.cons_append, List.nil_append]
        have hlt : c.toNat < 1114112 := by omega
        rw [utf8Decode]
        rw [show utf8Step (240 + c.toNat / 262144)
            ((128 + c.toNat / 4096 % 64) :: (128 + c.toNat / 64 % 64) ::
              (128 + c.toNat % 64) :: rest) = (c, rest) from by
          rw [utf8Step, if_neg (by omega), if_neg (by omega), if_neg (by omega),
            if_neg (by omega), if_pos (by omega)]
          try dsimp only
          have hcp : cp4 (240 + c.toNat / 262144) (128 + c.toNat / 4096 % 64)
              (128 + c.toNat / 64 % 64) (128 + c.toNat % 64) = c.toNat := by
            rw [cp4]; omega
          rw [if_pos (by
            simp only [isCont, hcp, Bool.and_eq_true, decide_eq_true_eq]
            omega)]
          rw [hcp, Char.ofNat_toNat]]

theorem utf8Decode_encodeList (l : List Char) :
    utf8Decode (utf8EncodeList l) = l := by
  induction l with
  | nil => rw [utf8EncodeList, utf8Decode]
  | cons c cs ih => rw [utf8EncodeList, utf8Decode_encode_cons, ih]


example : utf8EncodeStr "П" = [208, 159] := by decide

/-- Valid text survives the encode/decode-with-replacement round trip. -/
theorem decodeReplace_roundtrip (s : String) :
    decodeReplace (utf8EncodeStr s) = s := by
  rw [decodeReplace, utf8EncodeStr, utf8Decode_encodeList]

/-- C5: when the bytes are not a valid gzip/tar container (the tar layer
reports a format `ReadError`), `extract_index` returns the bytes decoded
as UTF-8 with replacement; in particular encoding any text and passing it
through returns the text unchanged. -/
theorem extract_index_fallback_roundtrip
    (tarOpen : List Nat → TarOpenResult) (raw : List Nat)
    (h : tarOpen raw = TarOpenResult.readError) :
    extract_index tarOpen raw = Except.ok (decodeReplace raw) ∧
    ∀ s : String, raw = utf8EncodeStr s →
      extract_index tarOpen raw = Except.ok s := by
  constructor
  · rw [extract_index, h]
  · intro s hs
    rw [extract_index, h, hs, decodeReplace_roundtrip]

/-- Witness for C5 with a concrete non-archive byte string. -/
theorem extract_index_fallback_roundtrip_witness :
    extract_index (fun _ => TarOpenResult.readError) (utf8EncodeStr "P:x\n") =
      Except.ok "P:x\n" :=
  (extract_index_fallback_roundtrip (fun _ => TarOpenResult.readError)
    (utf8EncodeStr "P:x\n") rfl).2 "P:x\n" rfl

end Zadacha
